import Mathlib

/-!
# Verification of the concentrated-liquidity AMM core

A shallow embedding of the `amm_core` program (`programs/core/src/lib.rs` and
the components its specification describes) together with theorems settling
the specification's claims about tick validation, tick/price conversion,
liquidity-net conservation, swap slippage bounds, tick crossing, reward
accrual, fee-growth monotonicity, the oracle, and the protocol-fee guard.

Machine integers are embedded as `Nat`/`Int`; fallible operations return
`Except`/`Option` (`Option.none` models a Rust `panic!`/`assert!` failure).
-/

namespace AmmCore


/-! ## Error codes

The error variants referenced by the embedded code, with the names used by
the source (`error::ErrorCode`).  The spec's error taxonomy (§7) uses two
coarser classes for tick validation errors; `errClass` maps the concrete
variants onto that taxonomy, following the spec's own grouping
"TickOutOfRange" and "InvalidTickOrdering (lower ≥ upper, or not
spacing-aligned)". -/

inductive ErrorCode where
  | TickLowerOverflow
  | TickUpperOverflow
  | TickAndSpacingNotMatch
  | TickInvaildOrder
  | InsufficientLiquidity
  | SlippageExceeded
  | PriceLimitViolation
  | RewardWindowInvalid
  | InvalidRewardIndex
  deriving DecidableEq, Repr

inductive SpecErrorClass where
  | TickOutOfRange
  | InvalidTickOrdering
  | OtherError
  deriving DecidableEq, Repr

def errClass : ErrorCode → SpecErrorClass
  | .TickLowerOverflow => .TickOutOfRange
  | .TickUpperOverflow => .TickOutOfRange
  | .TickAndSpacingNotMatch => .InvalidTickOrdering
  | .TickInvaildOrder => .InvalidTickOrdering
  | _ => .OtherError

/-! ## Tick bounds

Modelled from the spec: the numeric global tick bounds live in
`libraries::tick_math`, which is not under `src/`; the spec (§4.1, §3) only
says ticks must "lie within the global minimum/maximum tick bounds" of the
Q64.64 sqrt-price representation, for which the standard bounds are
±443636. -/

def MIN_TICK : Int := -443636

def MAX_TICK : Int := 443636

/-! ## Tick validation (`check_tick`, `check_ticks` — directly from
`programs/core/src/lib.rs`)

`require!(cond, err)` returns `Err(err)` when `cond` is false.  Rust's `%`
on `i32` is truncated remainder, which is `Int.tmod` here. -/

def check_tick (tick : Int) (tick_spacing : Nat) : Except ErrorCode Unit :=
  if MIN_TICK ≤ tick then
    if tick ≤ MAX_TICK then
      if Int.tmod tick (tick_spacing : Int) = 0 then .ok ()
      else .error .TickAndSpacingNotMatch
    else .error .TickUpperOverflow
  else .error .TickLowerOverflow

def check_ticks (tick_lower tick_upper : Int) : Except ErrorCode Unit :=
  if tick_lower < tick_upper then .ok ()
  else .error .TickInvaildOrder

/-- The validation performed on a tick-range input: both ticks individually
valid and the range correctly ordered (Rust's `?` early-return chaining). -/
def validateTickRange (tick_lower tick_upper : Int) (tick_spacing : Nat) :
    Except ErrorCode Unit :=
  match check_tick tick_lower tick_spacing with
  | .error e => .error e
  | .ok () =>
    match check_tick tick_upper tick_spacing with
    | .error e => .error e
    | .ok () => check_ticks tick_lower tick_upper

/-! ## Protocol fee guard (`create_amm_config`, `set_protocol_fee_rate` —
directly from `programs/core/src/lib.rs`)

`FEE_RATE_DENOMINATOR_VALUE` is declared in the missing `states` module;
modelled from the spec: fees are "denominated in hundredths of a bip
(i.e. 1e-6)", so the denominator is 10^6.  A failing `assert!` is a panic,
embedded as `Option.none`. -/

def FEE_RATE_DENOMINATOR_VALUE : Nat := 1000000

structure AmmConfig where
  protocol_fee_rate : Nat
  deriving DecidableEq, Repr

def set_protocol_fee_rate (amm_config : AmmConfig) (protocol_fee_rate : Nat) :
    Option AmmConfig :=
  if protocol_fee_rate > 0 ∧ protocol_fee_rate ≤ FEE_RATE_DENOMINATOR_VALUE then
    some { amm_config with protocol_fee_rate := protocol_fee_rate }
  else
    none

/-- Modelled from the spec: `instructions::create_amm_config` (not under
`src/`) "initializes the factory state" with the given protocol fee rate;
the entry function in `lib.rs` guards it with the same bare `assert!` as
`set_protocol_fee_rate`. -/
def create_amm_config (protocol_fee_rate : Nat) : Option AmmConfig :=
  if protocol_fee_rate > 0 ∧ protocol_fee_rate ≤ FEE_RATE_DENOMINATOR_VALUE then
    some { protocol_fee_rate := protocol_fee_rate }
  else
    none

/-! ## Liquidity positions and liquidity-net conservation (C2)

Modelled from the spec: `instructions::{create_position, increase_liquidity,
decrease_liquidity}` are not under `src/`.  Per spec §3/§4.3, a position
owns `liquidity` over `[tick_lower, tick_upper)`; every liquidity
addition/removal applies "a matched pair of boundary deltas": `+L` of
liquidity-net at the lower tick and `−L` at the upper tick (sign reversed
on removal).  Removal beyond the position's held liquidity is the
`InsufficientLiquidity` error (state unchanged); `create_position`
validates the tick range first (`check_tick`/`check_ticks` from
`lib.rs`). -/

structure Position where
  tick_lower : Int
  tick_upper : Int
  liquidity : Nat
  deriving DecidableEq, Repr

inductive LiquidityOp where
  | create (tick_lower tick_upper : Int) (liquidity : Nat)
  | increase (index : Nat) (liquidity : Nat)
  | decrease (index : Nat) (liquidity : Nat)
  deriving DecidableEq, Repr

def applyLiquidityOp (tick_spacing : Nat) (ps : List Position)
    (op : LiquidityOp) : List Position :=
  match op with
  | .create l u L =>
    match validateTickRange l u tick_spacing with
    | .ok () => ps ++ [⟨l, u, L⟩]
    | .error _ => ps
  | .increase i dL =>
    match ps[i]? with
    | some p => ps.set i { p with liquidity := p.liquidity + dL }
    | none => ps
  | .decrease i dL =>
    match ps[i]? with
    | some p =>
      if dL ≤ p.liquidity then ps.set i { p with liquidity := p.liquidity - dL }
      else ps
    | none => ps

def execLiquidityOps (tick_spacing : Nat) (ops : List LiquidityOp) : List Position :=
  ops.foldl (applyLiquidityOp tick_spacing) []

/-- The liquidity-net of tick `t`: each position contributes `+liquidity`
at its lower tick and `−liquidity` at its upper tick. -/
def liquidityNet (ps : List Position) (t : Int) : Int :=
  (ps.map (fun p =>
    (if p.tick_lower = t then (p.liquidity : Int) else 0) -
      (if p.tick_upper = t then (p.liquidity : Int) else 0))).sum

/-- The liquidity-gross of tick `t`: each position touching `t` as a
boundary contributes `+liquidity`. -/
def liquidityGross (ps : List Position) (t : Int) : Nat :=
  (ps.map (fun p =>
    (if p.tick_lower = t then p.liquidity else 0) +
      (if p.tick_upper = t then p.liquidity else 0))).sum

/-- The finite set of ticks referenced as a boundary by some position. -/
def boundaryTicks (ps : List Position) : Finset Int :=
  (ps.map Position.tick_lower).toFinset ∪ (ps.map Position.tick_upper).toFinset

/-! ## Oracle (C9)

Modelled from the spec: the oracle module is not under `src/`.  Per spec
§4.7 and §3, an `ObservationSlot` stores a timestamp and the cumulative
`Σ tick·Δt`; `write(timestamp, tick, liquidity)` appends a new cumulative
observation only if the timestamp differs from the latest slot's, adding
`tick · (timestamp − last.timestamp)` to the running tick-cumulative (the
slot stores no tick of its own, so the tick argument is the one weighted
over the elapsed interval); the first write initializes the cumulative at
zero.  `observe` finds the slots bracketing the target timestamp (an exact
hit uses the slot directly, otherwise the cumulative is linearly
interpolated) and the time-weighted-average tick is the cumulative delta
divided by elapsed time, rounded toward negative infinity (`Int.fdiv`).
The buffer is modelled as a chronological list (cardinality large enough
that cyclic overwrite is not reached). -/

structure ObservationSlot where
  block_timestamp : Nat
  tick_cumulative : Int
  deriving DecidableEq, Repr

def writeObservation (slots : List ObservationSlot) (timestamp : Nat)
    (tick : Int) : List ObservationSlot :=
  match slots.getLast? with
  | none => [⟨timestamp, 0⟩]
  | some last =>
    if timestamp = last.block_timestamp then slots
    else slots ++ [⟨timestamp,
      last.tick_cumulative + tick * ((timestamp : Int) - last.block_timestamp)⟩]

def tickCumulativeAt (slots : List ObservationSlot) (t : Nat) : Option Int :=
  match slots.find? (fun s => s.block_timestamp = t) with
  | some s => some s.tick_cumulative
  | none =>
    match (slots.zip slots.tail).find?
        (fun ab => ab.1.block_timestamp ≤ t ∧ t < ab.2.block_timestamp) with
    | some (a, b) =>
      some (a.tick_cumulative +
        Int.fdiv ((b.tick_cumulative - a.tick_cumulative) * ((t : Int) - a.block_timestamp))
          ((b.block_timestamp : Int) - a.block_timestamp))
    | none => none

/-- Time-weighted average tick over `[t1, t2]`: cumulative delta divided by
elapsed time, rounded toward negative infinity. -/
def twapTick (slots : List ObservationSlot) (t1 t2 : Nat) : Option Int :=
  match tickCumulativeAt slots t1, tickCumulativeAt slots t2 with
  | some c1, some c2 => some (Int.fdiv (c2 - c1) ((t2 : Int) - t1))
  | _, _ => none

/-- The oracle state after the three writes of the claim's scenario:
timestamps 100, 200, 300 with ticks 0, 10, 30. -/
def oracleScenario : List ObservationSlot :=
  writeObservation (writeObservation (writeObservation [] 100 0) 200 10) 300 30

/-! ## Reward accrual (C7)

Modelled from the spec: `instructions::{update_reward_infos,
set_reward_emissions}` are not under `src/`.  Per spec §4.5 and §2, each
reward stream has an emission rate and an active window `[open_time,
end_time)`; the global growth-per-liquidity accumulator is advanced lazily
by `elapsed_active_time × rate / active_liquidity`, where the elapsed
active time is the part of the interval since the last update that lies in
the window; if active liquidity is zero, no accrual occurs.  Setting a new
emission rate first force-settles growth up to now at the old rate. -/

structure RewardInfo where
  open_time : Nat
  end_time : Nat
  last_update_time : Nat
  emissions_per_second_x64 : Nat
  reward_growth_global_x64 : Nat
  deriving DecidableEq, Repr

def updateRewardInfo (now liquidity : Nat) (r : RewardInfo) : RewardInfo :=
  let t0 := max r.last_update_time r.open_time
  let t1 := min now r.end_time
  let dt := t1 - t0
  let growth :=
    if liquidity = 0 then r.reward_growth_global_x64
    else r.reward_growth_global_x64 + dt * r.emissions_per_second_x64 / liquidity
  { r with
    reward_growth_global_x64 := growth
    last_update_time := max r.last_update_time (min now r.end_time) }

def updateRewardInfos (now liquidity : Nat) (rs : List RewardInfo) : List RewardInfo :=
  rs.map (updateRewardInfo now liquidity)

def setRewardEmissions (now liquidity emissions_per_second_x64 : Nat)
    (r : RewardInfo) : RewardInfo :=
  let settled := updateRewardInfo now liquidity r
  { settled with emissions_per_second_x64 := emissions_per_second_x64 }

/-! ## Fee-growth-inside monotonicity (C8)

Modelled from the spec: `collect_fee` settlement and the fee accounting it
reads live in modules not under `src/`.  Per spec §4.4, the pool keeps a
global fee-growth accumulator (monotonically fed by swap fees) and each
boundary tick keeps an "outside" snapshot that is flipped
(`value ↦ global − value`) whenever the current price crosses it; the
growth inside a range `[l, u)` is `global − below(l) − above(u)` where
`below`/`above` select the snapshot or its complement according to which
side of the boundary the current tick sits on.  With no intervening
removal of liquidity the boundary ticks stay initialized, so the pool
evolves only by fee accrual, by price moves that cross neither boundary,
and by crossings of `l` or `u` with the corresponding flip.  Values are
exact integers (spec model; fees only accrue). -/

structure FeeSnapshot where
  currentTick : Int
  feeGrowthGlobal : Int
  feeGrowthOutsideLower : Int
  feeGrowthOutsideUpper : Int
  deriving DecidableEq, Repr

/-- Fee growth inside `[l, u)`, exactly as the settlement code computes it:
`global − below(l) − above(u)`. -/
def feeGrowthInside (l u : Int) (s : FeeSnapshot) : Int :=
  let below := if l ≤ s.currentTick then s.feeGrowthOutsideLower
    else s.feeGrowthGlobal - s.feeGrowthOutsideLower
  let above := if s.currentTick < u then s.feeGrowthOutsideUpper
    else s.feeGrowthGlobal - s.feeGrowthOutsideUpper
  s.feeGrowthGlobal - below - above

/-- Pool evolution between two settlements of a position on `[l, u)`:
fee accrual into the global accumulator, price moves that do not cross a
boundary of the range, and boundary crossings with their snapshot flip. -/
inductive FeeStep (l u : Int) : FeeSnapshot → FeeSnapshot → Prop where
  | accrue (s : FeeSnapshot) (δ : Nat) :
      FeeStep l u s { s with feeGrowthGlobal := s.feeGrowthGlobal + δ }
  | move (s : FeeSnapshot) (t : Int)
      (hl : l ≤ s.currentTick ↔ l ≤ t) (hu : s.currentTick < u ↔ t < u) :
      FeeStep l u s { s with currentTick := t }
  | crossLowerUp (s : FeeSnapshot) (t : Int)
      (h0 : s.currentTick < l) (h1 : l ≤ t) (h2 : t < u) :
      FeeStep l u s { s with currentTick := t, feeGrowthOutsideLower := s.feeGrowthGlobal - s.feeGrowthOutsideLower }
  | crossLowerDown (s : FeeSnapshot) (t : Int)
      (h0 : l ≤ s.currentTick) (h1 : s.currentTick < u) (h2 : t < l) :
      FeeStep l u s { s with currentTick := t, feeGrowthOutsideLower := s.feeGrowthGlobal - s.feeGrowthOutsideLower }
  | crossUpperUp (s : FeeSnapshot) (t : Int)
      (h0 : l ≤ s.currentTick) (h1 : s.currentTick < u) (h2 : u ≤ t) :
      FeeStep l u s { s with currentTick := t, feeGrowthOutsideUpper := s.feeGrowthGlobal - s.feeGrowthOutsideUpper }
  | crossUpperDown (s : FeeSnapshot) (t : Int)
      (h0 : u ≤ s.currentTick) (h1 : l ≤ t) (h2 : t < u) :
      FeeStep l u s { s with currentTick := t, feeGrowthOutsideUpper := s.feeGrowthGlobal - s.feeGrowthOutsideUpper }

/-! ## Tick ↔ sqrt-price conversion (C1)

Modelled from the spec: `libraries::tick_math` is not under `src/`.  Per
spec §4.1 and the glossary, the Q64.64 sqrt price of tick `t` is the
fixed-point representation of `√(1.0001^t)`, computed with widened
(256-bit) intermediate precision before truncating; `ratioX128 t` is the
Q128 fixed-point value of `1.0001^t` (exact integer arithmetic on the
rational `10001/10000`, floor-truncated), and the sqrt price is the floor
square root of it, `⌊2^64·1.0001^(t/2)⌋`.  The reverse conversion finds
the tick by a binary search "bounded so that the round-trip
tick↔price↔tick is exact for valid ticks": it returns the greatest valid
tick whose sqrt price does not exceed the queried price.  `isqrt` is a
fuel-based Newton iteration (identical to `Nat.sqrt`, proved so below),
kept explicit so that concrete evaluations reduce. -/

def ratioX128 (t : Int) : Nat :=
  if 0 ≤ t then 2 ^ 128 * 10001 ^ t.toNat / 10000 ^ t.toNat
  else 2 ^ 128 * 10000 ^ (-t).toNat / 10001 ^ (-t).toNat

def isqrtIter (n : Nat) : Nat → Nat → Nat
  | 0, guess => guess
  | fuel + 1, guess =>
    let next := (guess + n / guess) / 2
    if next < guess then isqrtIter n fuel next else guess

def isqrt (n : Nat) : Nat :=
  if n ≤ 1 then n else isqrtIter n (n / 2) (n / 2)

def sqrt_price_from_tick (t : Int) : Nat :=
  isqrt (ratioX128 t)

/-- Number of ticks between `MIN_TICK` and `MAX_TICK`. -/
def NUM_TICKS : Nat := 887272

def tickSearch (p : Nat) : Nat → Nat → Nat → Nat
  | lo, _, 0 => lo
  | lo, hi, fuel + 1 =>
    if lo < hi then
      let mid := (lo + hi + 1) / 2
      if sqrt_price_from_tick (MIN_TICK + mid) ≤ p then tickSearch p mid hi fuel
      else tickSearch p lo (mid - 1) fuel
    else lo

/-- Binary search for the greatest valid tick whose sqrt price is at most
`p` (20 halvings suffice for the 887272-tick domain). -/
def tick_from_sqrt_price (p : Nat) : Int :=
  MIN_TICK + tickSearch p 0 NUM_TICKS 20

/-! ## Swap engine (C3, C6)

Modelled from the spec: `instructions::swap` and the swap state machine are
not under `src/`.  Per spec §4.6 the swap repeatedly advances from the
current tick to the next initialized tick (via the bitmap) or the caller's
price limit; each step transfers the maximum amount before the binding
boundary, deducts the fee from the step's input (splitting it into
protocol fee and LP fee added to the global fee-growth accumulator per
§4.4), and a step that ends exactly at an initialized tick boundary
crosses it: the tick's fee/reward outside-snapshots are flipped, its
liquidity-net is applied to active liquidity (sign depending on
direction), the current tick advances past the boundary, and the bitmap
bit is flipped if liquidity-gross becomes zero.  Amount formulas are the
closed forms of §4.3 (`amount0 = L·(1/√Pa − 1/√Pb)`,
`amount1 = L·(√Pb − √Pa)`) in Q64.64 with explicit rounding direction,
evaluated in unbounded precision (spec: widened intermediates).  The
oracle is written once with pre-swap state; the final totals must satisfy
the slippage bound or the operation fails. -/

structure TickInfo where
  liquidity_net : Int
  liquidity_gross : Nat
  fee_growth_outside_0_x64 : Nat
  fee_growth_outside_1_x64 : Nat
  reward_growths_outside : List Nat
  deriving DecidableEq, Repr

def lookupTick (ticks : List (Int × TickInfo)) (t : Int) : Option TickInfo :=
  match ticks.find? (fun e => e.1 == t) with
  | some e => some e.2
  | none => none

def updateTickEntry (ticks : List (Int × TickInfo)) (t : Int)
    (info : TickInfo) : List (Int × TickInfo) :=
  ticks.map (fun e => if e.1 == t then (t, info) else e)

structure PoolState where
  tick : Int
  sqrt_price_x64 : Nat
  liquidity : Nat
  fee_rate : Nat
  protocol_fee_rate : Nat
  fee_growth_global_0_x64 : Nat
  fee_growth_global_1_x64 : Nat
  protocol_fees_token_0 : Nat
  protocol_fees_token_1 : Nat
  reward_growths_global : List Nat
  ticks : List (Int × TickInfo)
  bitmap : List Int
  observations : List ObservationSlot
  deriving DecidableEq, Repr

/-- Next initialized tick at or below `t` (zero-for-one search). -/
def nextInitializedTickDown (bitmap : List Int) (t : Int) : Option Int :=
  (bitmap.filter (fun x => decide (x ≤ t))).foldl
    (fun acc x => match acc with
      | none => some x
      | some m => some (max m x)) none

/-- Next initialized tick strictly above `t` (one-for-zero search). -/
def nextInitializedTickUp (bitmap : List Int) (t : Int) : Option Int :=
  (bitmap.filter (fun x => decide (t < x))).foldl
    (fun acc x => match acc with
      | none => some x
      | some m => some (min m x)) none

/-- The boundary tick for the current step and whether it is initialized
(an uninitialized result means the search fell back to the domain edge). -/
def swapNext (zeroForOne : Bool) (p : PoolState) : Int × Bool :=
  if zeroForOne then
    match nextInitializedTickDown p.bitmap p.tick with
    | some t => (t, true)
    | none => (MIN_TICK, false)
  else
    match nextInitializedTickUp p.bitmap p.tick with
    | some t => (t, true)
    | none => (MAX_TICK, false)

def Q64 : Nat := 2 ^ 64

def ceilDiv (a b : Nat) : Nat := (a + b - 1) / b

/-- `amount0 = L·2^64·(√Pb − √Pa)/(√Pb·√Pa)` with explicit rounding. -/
def getAmount0Delta (pLow pHigh L : Nat) (roundUp : Bool) : Nat :=
  if roundUp then ceilDiv (L * Q64 * (pHigh - pLow)) (pHigh * pLow)
  else L * Q64 * (pHigh - pLow) / (pHigh * pLow)

/-- `amount1 = L·(√Pb − √Pa)/2^64` with explicit rounding. -/
def getAmount1Delta (pLow pHigh L : Nat) (roundUp : Bool) : Nat :=
  if roundUp then ceilDiv (L * (pHigh - pLow)) Q64
  else L * (pHigh - pLow) / Q64

def getNextSqrtPriceFromInput (p L amountIn : Nat) (zeroForOne : Bool) : Nat :=
  if zeroForOne then ceilDiv (L * Q64 * p) (L * Q64 + amountIn * p)
  else p + amountIn * Q64 / L

def getNextSqrtPriceFromOutput (p L amountOut : Nat) (zeroForOne : Bool) : Nat :=
  if zeroForOne then p - ceilDiv (amountOut * Q64) L
  else ceilDiv (L * Q64 * p) (L * Q64 - amountOut * p)

structure SwapStepResult where
  sqrt_price_next : Nat
  amount_in : Nat
  amount_out : Nat
  fee_amount : Nat
  deriving DecidableEq, Repr

/-- One swap step: the maximum amount transferable before the target
price, the fee on the step's input, and the reached price — whichever of
the target and amount exhaustion binds first. -/
def computeSwapStep (pCur pTarget L remaining feeRate : Nat)
    (exactIn : Bool) : SwapStepResult :=
  let zeroForOne := decide (pTarget < pCur)
  if exactIn then
    let remLessFee :=
      remaining * (FEE_RATE_DENOMINATOR_VALUE - feeRate) / FEE_RATE_DENOMINATOR_VALUE
    let amountInMax :=
      if zeroForOne then getAmount0Delta pTarget pCur L true
      else getAmount1Delta pCur pTarget L true
    if amountInMax ≤ remLessFee then
      let fee := ceilDiv (amountInMax * feeRate) (FEE_RATE_DENOMINATOR_VALUE - feeRate)
      let out :=
        if zeroForOne then getAmount1Delta pTarget pCur L false
        else getAmount0Delta pCur pTarget L false
      ⟨pTarget, amountInMax, out, fee⟩
    else
      let pNext := getNextSqrtPriceFromInput pCur L remLessFee zeroForOne
      let out :=
        if zeroForOne then getAmount1Delta pNext pCur L false
        else getAmount0Delta pCur pNext L false
      ⟨pNext, remLessFee, out, remaining - remLessFee⟩
  else
    let amountOutMax :=
      if zeroForOne then getAmount1Delta pTarget pCur L false
      else getAmount0Delta pCur pTarget L false
    if amountOutMax ≤ remaining then
      let aIn :=
        if zeroForOne then getAmount0Delta pTarget pCur L true
        else getAmount1Delta pCur pTarget L true
      ⟨pTarget, aIn, amountOutMax,
        ceilDiv (aIn * feeRate) (FEE_RATE_DENOMINATOR_VALUE - feeRate)⟩
    else
      let pNext := getNextSqrtPriceFromOutput pCur L remaining zeroForOne
      let aIn :=
        if zeroForOne then getAmount0Delta pNext pCur L true
        else getAmount1Delta pCur pNext L true
      ⟨pNext, aIn, remaining,
        ceilDiv (aIn * feeRate) (FEE_RATE_DENOMINATOR_VALUE - feeRate)⟩

/-- Crossing a tick: flip its fee/reward outside-snapshots against the
current globals, apply its liquidity-net to active liquidity (sign
depending on direction), advance the current tick past the boundary, and
flip its bitmap bit if liquidity-gross becomes zero. -/
def crossTick (p : PoolState) (t : Int) (zeroForOne : Bool) : PoolState :=
  match lookupTick p.ticks t with
  | none => { p with tick := if zeroForOne then t - 1 else t }
  | some info =>
    let flipped : TickInfo :=
      { liquidity_net := info.liquidity_net
        liquidity_gross := info.liquidity_gross
        fee_growth_outside_0_x64 :=
          p.fee_growth_global_0_x64 - info.fee_growth_outside_0_x64
        fee_growth_outside_1_x64 :=
          p.fee_growth_global_1_x64 - info.fee_growth_outside_1_x64
        reward_growths_outside :=
          (p.reward_growths_global.zip info.reward_growths_outside).map
            (fun gr => gr.1 - gr.2) }
    { p with
      ticks := updateTickEntry p.ticks t flipped
      liquidity :=
        (if zeroForOne then (p.liquidity : Int) - info.liquidity_net
         else (p.liquidity : Int) + info.liquidity_net).toNat
      tick := if zeroForOne then t - 1 else t
      bitmap := if info.liquidity_gross = 0 then p.bitmap.erase t else p.bitmap }

structure SwapState where
  pool : PoolState
  amountSpecifiedRemaining : Nat
  amountCalculated : Nat
  deriving DecidableEq, Repr

/-- The step's price target: the boundary tick's price clamped by the
caller's limit. -/
def swapStepTarget (zeroForOne : Bool) (limit : Nat) (p : PoolState) : Nat :=
  if zeroForOne then max (sqrt_price_from_tick (swapNext zeroForOne p).1) limit
  else min (sqrt_price_from_tick (swapNext zeroForOne p).1) limit

def swapStepCompute (exactIn zeroForOne : Bool) (limit : Nat)
    (s : SwapState) : SwapStepResult :=
  computeSwapStep s.pool.sqrt_price_x64 (swapStepTarget zeroForOne limit s.pool)
    s.pool.liquidity s.amountSpecifiedRemaining s.pool.fee_rate exactIn

/-- Apply a step's accounting: move the price, consume the specified
amount, accumulate the calculated amount, split the fee into protocol fee
and LP fee, and feed the LP fee into the input token's global fee-growth
accumulator (no accrual at zero liquidity). -/
def applySwapStepAccounting (exactIn zeroForOne : Bool)
    (step : SwapStepResult) (s : SwapState) : SwapState :=
  let p := s.pool
  let protocolFeeDelta := step.fee_amount * p.protocol_fee_rate / FEE_RATE_DENOMINATOR_VALUE
  let lpFee := step.fee_amount - protocolFeeDelta
  let growthDelta := if p.liquidity = 0 then 0 else lpFee * Q64 / p.liquidity
  { pool := { p with
      sqrt_price_x64 := step.sqrt_price_next
      fee_growth_global_0_x64 :=
        if zeroForOne then p.fee_growth_global_0_x64 + growthDelta
        else p.fee_growth_global_0_x64
      fee_growth_global_1_x64 :=
        if zeroForOne then p.fee_growth_global_1_x64
        else p.fee_growth_global_1_x64 + growthDelta
      protocol_fees_token_0 :=
        if zeroForOne then p.protocol_fees_token_0 + protocolFeeDelta
        else p.protocol_fees_token_0
      protocol_fees_token_1 :=
        if zeroForOne then p.protocol_fees_token_1
        else p.protocol_fees_token_1 + protocolFeeDelta }
    amountSpecifiedRemaining := s.amountSpecifiedRemaining -
      (if exactIn then step.amount_in + step.fee_amount else step.amount_out)
    amountCalculated := s.amountCalculated +
      (if exactIn then step.amount_out else step.amount_in + step.fee_amount) }

/-- One iteration of the swap loop: compute the step, apply its
accounting, then either cross the boundary tick (if the step ended exactly
at an initialized tick's price), step just past an uninitialized edge, or
re-derive the current tick from the reached price. -/
def swapStepOnce (exactIn zeroForOne : Bool) (limit : Nat)
    (s : SwapState) : SwapState :=
  let tn := swapNext zeroForOne s.pool
  let step := swapStepCompute exactIn zeroForOne limit s
  let s1 := applySwapStepAccounting exactIn zeroForOne step s
  if step.sqrt_price_next = sqrt_price_from_tick tn.1 then
    if tn.2 then { s1 with pool := crossTick s1.pool tn.1 zeroForOne }
    else { s1 with pool := { s1.pool with tick := if zeroForOne then tn.1 - 1 else tn.1 } }
  else if step.sqrt_price_next ≠ s.pool.sqrt_price_x64 then
    { s1 with pool := { s1.pool with tick := tick_from_sqrt_price step.sqrt_price_next } }
  else s1

def swapLoop (exactIn zeroForOne : Bool) (limit : Nat) :
    Nat → SwapState → SwapState
  | 0, s => s
  | fuel + 1, s =>
    if s.amountSpecifiedRemaining ≠ 0 ∧ s.pool.sqrt_price_x64 ≠ limit then
      swapLoop exactIn zeroForOne limit fuel (swapStepOnce exactIn zeroForOne limit s)
    else s

/-- The loop run to completion (ignoring slippage): final state after the
oracle has been written once with the pre-swap tick. -/
def swapRaw (pool : PoolState) (now : Nat) (zeroForOne : Bool)
    (amount : Nat) (sqrt_price_limit_x64 : Nat) (is_base_input : Bool) :
    SwapState :=
  let pool1 := { pool with
    observations := writeObservation pool.observations now pool.tick }
  swapLoop is_base_input zeroForOne sqrt_price_limit_x64
    (pool1.bitmap.length + 2) ⟨pool1, amount, 0⟩

/-- The full swap: validate the price limit's side, run the loop, enforce
the exact-output completion rule and the caller's slippage bound; on
success return the updated pool and the (amount in, amount out) pair. -/
def swap (pool : PoolState) (now : Nat) (zeroForOne : Bool)
    (amount other_amount_threshold sqrt_price_limit_x64 : Nat)
    (is_base_input : Bool) : Except ErrorCode (PoolState × Nat × Nat) :=
  if (if zeroForOne then ¬ sqrt_price_limit_x64 < pool.sqrt_price_x64
      else ¬ pool.sqrt_price_x64 < sqrt_price_limit_x64) then
    .error .PriceLimitViolation
  else if is_base_input then
    if (swapRaw pool now zeroForOne amount sqrt_price_limit_x64 true).amountCalculated <
        other_amount_threshold then
      .error .SlippageExceeded
    else
      .ok ((swapRaw pool now zeroForOne amount sqrt_price_limit_x64 true).pool,
        amount -
          (swapRaw pool now zeroForOne amount sqrt_price_limit_x64 true).amountSpecifiedRemaining,
        (swapRaw pool now zeroForOne amount sqrt_price_limit_x64 true).amountCalculated)
  else if (swapRaw pool now zeroForOne amount sqrt_price_limit_x64 false).amountSpecifiedRemaining ≠ 0 then
    .error .PriceLimitViolation
  else if other_amount_threshold <
      (swapRaw pool now zeroForOne amount sqrt_price_limit_x64 false).amountCalculated then
    .error .SlippageExceeded
  else
    .ok ((swapRaw pool now zeroForOne amount sqrt_price_limit_x64 false).pool,
      (swapRaw pool now zeroForOne amount sqrt_price_limit_x64 false).amountCalculated,
      amount -
        (swapRaw pool now zeroForOne amount sqrt_price_limit_x64 false).amountSpecifiedRemaining)

/-! ## Engine operations and atomicity (C4)

Modelled from the spec: per §5 and §7 every engine operation runs to
completion or aborts, relying on the enclosing execution environment's
atomic commit-or-discard transaction boundary — a failing operation leaves
all pool/tick/position/oracle state exactly as it was.  `execEngineOp` is
the engine's computation as an `Except` (no state is produced on error);
`runEngineOp` is the environment's commit-or-discard semantics.
`collect` settles and transfers owed amounts capped by the request; the
engine gives it no failure path (authorization is external). -/

structure EngineState where
  pool : PoolState
  positions : List Position
  rewards : List RewardInfo
  deriving DecidableEq, Repr

inductive EngineOp where
  | swapExactIn (zeroForOne : Bool) (amount threshold limit : Nat)
  | swapExactOut (zeroForOne : Bool) (amount threshold limit : Nat)
  | createPosition (tick_lower tick_upper : Int) (liquidity : Nat)
  | increaseLiquidity (index liquidity : Nat)
  | decreaseLiquidity (index liquidity : Nat)
  | collectFee (index : Nat) (amount_0_max amount_1_max : Nat)
  | updateRewards
  | setRewardEmissionsOp (index rate : Nat)
  | writeOracle
  deriving DecidableEq, Repr

def execEngineOp (now tick_spacing : Nat) (st : EngineState)
    (op : EngineOp) : Except ErrorCode EngineState :=
  match op with
  | .swapExactIn dir amount thr limit =>
    match swap st.pool now dir amount thr limit true with
    | .ok (p', _, _) => .ok { st with pool := p' }
    | .error e => .error e
  | .swapExactOut dir amount thr limit =>
    match swap st.pool now dir amount thr limit false with
    | .ok (p', _, _) => .ok { st with pool := p' }
    | .error e => .error e
  | .createPosition l u L =>
    match validateTickRange l u tick_spacing with
    | .ok () => .ok { st with positions := st.positions ++ [⟨l, u, L⟩] }
    | .error e => .error e
  | .increaseLiquidity i dL =>
    match st.positions[i]? with
    | some p =>
      .ok { st with positions :=
        st.positions.set i { p with liquidity := p.liquidity + dL } }
    | none => .error .InsufficientLiquidity
  | .decreaseLiquidity i dL =>
    match st.positions[i]? with
    | some p =>
      if dL ≤ p.liquidity then
        .ok { st with positions :=
          st.positions.set i { p with liquidity := p.liquidity - dL } }
      else .error .InsufficientLiquidity
    | none => .error .InsufficientLiquidity
  | .collectFee _ _ _ => .ok st
  | .updateRewards =>
    .ok { st with rewards := updateRewardInfos now st.pool.liquidity st.rewards }
  | .setRewardEmissionsOp i rate =>
    match st.rewards[i]? with
    | some r =>
      .ok { st with rewards :=
        st.rewards.set i (setRewardEmissions now st.pool.liquidity rate r) }
    | none => .error .InvalidRewardIndex
  | .writeOracle =>
    .ok { st with pool := { st.pool with
      observations := writeObservation st.pool.observations now st.pool.tick } }

/-- The environment's commit-or-discard boundary around one operation. -/
def runEngineOp (now tick_spacing : Nat) (st : EngineState)
    (op : EngineOp) : EngineState :=
  match execEngineOp now tick_spacing st op with
  | .ok st' => st'
  | .error _ => st

/-! ## Theorems -/

/-! ### Lemmas about tick validation -/

lemma check_tick_ok_iff (t : Int) (s : Nat) :
    check_tick t s = .ok () ↔
      MIN_TICK ≤ t ∧ t ≤ MAX_TICK ∧ (s : Int) ∣ t := by
  unfold check_tick
  split_ifs with h1 h2 h3 <;> simp_all [Int.dvd_iff_tmod_eq_zero]

lemma check_ticks_ok_iff (l u : Int) :
    check_ticks l u = .ok () ↔ l < u := by
  unfold check_ticks
  split_ifs with h <;> simp_all

lemma check_tick_error_class (t : Int) (s : Nat) (e : ErrorCode)
    (h : check_tick t s = .error e) :
    ((errClass e = .TickOutOfRange ↔ (t < MIN_TICK ∨ MAX_TICK < t)) ∧
      (errClass e = .InvalidTickOrdering ↔
        (MIN_TICK ≤ t ∧ t ≤ MAX_TICK ∧ ¬ (s : Int) ∣ t))) ∧
      (errClass e = .TickOutOfRange ∨ errClass e = .InvalidTickOrdering) := by
  unfold check_tick at h
  by_cases h1 : MIN_TICK ≤ t
  · rw [if_pos h1] at h
    by_cases h2 : t ≤ MAX_TICK
    · rw [if_pos h2] at h
      by_cases h3 : Int.tmod t (s : Int) = 0
      · rw [if_pos h3] at h
        cases h
      · rw [if_neg h3] at h
        have he : ErrorCode.TickAndSpacingNotMatch = e := by simpa using h
        subst he
        have hnd : ¬ (s : Int) ∣ t := fun hd =>
          h3 (Int.dvd_iff_tmod_eq_zero.mp hd)
        refine ⟨⟨?_, ?_⟩, Or.inr rfl⟩
        · simp only [errClass]
          constructor
          · intro hc; cases hc
          · intro hc; omega
        · simp only [errClass, true_iff]
          exact ⟨h1, h2, hnd⟩
    · rw [if_neg h2] at h
      have he : ErrorCode.TickUpperOverflow = e := by simpa using h
      subst he
      push_neg at h2
      refine ⟨⟨?_, ?_⟩, Or.inl rfl⟩
      · simp only [errClass, true_iff]
        exact Or.inr h2
      · simp only [errClass]
        constructor
        · intro hc; cases hc
        · intro hc; omega
  · rw [if_neg h1] at h
    have he : ErrorCode.TickLowerOverflow = e := by simpa using h
    subst he
    push_neg at h1
    refine ⟨⟨?_, ?_⟩, Or.inl rfl⟩
    · simp only [errClass, true_iff]
      exact Or.inl h1
    · simp only [errClass]
      constructor
      · intro hc; cases hc
      · intro hc; omega

lemma check_ticks_error_class (l u : Int) (e : ErrorCode)
    (h : check_ticks l u = .error e) :
    u ≤ l ∧ errClass e = .InvalidTickOrdering := by
  unfold check_ticks at h
  by_cases h1 : l < u
  · rw [if_pos h1] at h
    cases h
  · rw [if_neg h1] at h
    have he : ErrorCode.TickInvaildOrder = e := by simpa using h
    subst he
    push_neg at h1
    exact ⟨h1, rfl⟩

lemma validateTickRange_ok_iff (l u : Int) (s : Nat) :
    validateTickRange l u s = .ok () ↔
      (l < u ∧ (s : Int) ∣ l ∧ (s : Int) ∣ u ∧
        MIN_TICK ≤ l ∧ l ≤ MAX_TICK ∧ MIN_TICK ≤ u ∧ u ≤ MAX_TICK) := by
  unfold validateTickRange
  constructor
  · intro h
    rcases hl : check_tick l s with el | vl
    · rw [hl] at h; cases h
    · rcases hu : check_tick u s with eu | vu
      · rw [hl, hu] at h; cases vl; cases h
      · cases vl; cases vu
        rw [hl, hu] at h
        obtain ⟨ha, hb, hc⟩ := (check_tick_ok_iff l s).mp hl
        obtain ⟨hd, he, hf⟩ := (check_tick_ok_iff u s).mp hu
        exact ⟨(check_ticks_ok_iff l u).mp h, hc, hf, ha, hb, hd, he⟩
  · rintro ⟨h1, h2, h3, h4, h5, h6, h7⟩
    rw [(check_tick_ok_iff l s).mpr ⟨h4, h5, h2⟩,
      (check_tick_ok_iff u s).mpr ⟨h6, h7, h3⟩]
    exact (check_ticks_ok_iff l u).mpr h1

/-- **C5.** Tick-range validation succeeds iff `tick_lower < tick_upper`,
both ticks are multiples of the tick spacing, and both lie within the
global tick bounds; a tick outside the bounds fails with an error of the
spec's `TickOutOfRange` class, while a misordered range or a
non-spacing-aligned tick fails with an error of the spec's
`InvalidTickOrdering` class (which, per spec §7, covers "lower ≥ upper, or
not spacing-aligned"). -/
theorem tick_validation_spec (l u : Int) (s : Nat) :
    (validateTickRange l u s = .ok () ↔
      (l < u ∧ (s : Int) ∣ l ∧ (s : Int) ∣ u ∧
        MIN_TICK ≤ l ∧ l ≤ MAX_TICK ∧ MIN_TICK ≤ u ∧ u ≤ MAX_TICK)) ∧
    (∀ t e, check_tick t s = .error e →
      ((t < MIN_TICK ∨ MAX_TICK < t) → errClass e = .TickOutOfRange) ∧
      ((MIN_TICK ≤ t ∧ t ≤ MAX_TICK) →
        (¬ (s : Int) ∣ t ∧ errClass e = .InvalidTickOrdering))) ∧
    (∀ e, check_ticks l u = .error e →
      u ≤ l ∧ errClass e = .InvalidTickOrdering) := by
  refine ⟨validateTickRange_ok_iff l u s, fun t e h => ?_,
    fun e h => check_ticks_error_class l u e h⟩
  obtain ⟨⟨h1, h2⟩, hor⟩ := check_tick_error_class t s e h
  constructor
  · intro hout
    exact h1.mpr hout
  · intro hin
    rcases hor with hc | hc
    · rcases h1.mp hc with hlt | hgt
      · exact absurd hin.1 (not_le.mpr hlt)
      · exact absurd hin.2 (not_le.mpr hgt)
    · obtain ⟨-, -, hd⟩ := h2.mp hc
      exact ⟨hd, hc⟩

/-- Witness for `tick_validation_spec` at concrete inputs: a valid range,
an out-of-bounds tick, and a misordered range. -/
theorem tick_validation_spec_witness :
    validateTickRange (-10) 10 5 = .ok () ∧
      errClass .TickLowerOverflow = .TickOutOfRange ∧
      errClass .TickInvaildOrder = .InvalidTickOrdering := by
  have h1 : check_tick (-500000) 5 = .error .TickLowerOverflow := by
    unfold check_tick
    rw [if_neg (by decide)]
  have h2 : check_ticks 10 10 = .error .TickInvaildOrder := by
    unfold check_ticks
    rw [if_neg (by decide)]
  refine ⟨(tick_validation_spec (-10) 10 5).1.mpr (by decide), ?_, ?_⟩
  · exact ((tick_validation_spec (-10) 10 5).2.1 (-500000) .TickLowerOverflow
      h1).1 (by decide)
  · exact ((tick_validation_spec 10 10 5).2.2 .TickInvaildOrder h2).2

/-- **C10.** `create_amm_config` and `set_protocol_fee_rate` panic via the
bare `assert!` when `protocol_fee_rate = 0` or
`protocol_fee_rate > FEE_RATE_DENOMINATOR_VALUE`; under the precondition
`0 < protocol_fee_rate ≤ FEE_RATE_DENOMINATOR_VALUE` the assertion holds
and `set_protocol_fee_rate` stores the new rate in
`amm_config.protocol_fee_rate`. -/
theorem protocol_fee_rate_assert (cfg : AmmConfig) (rate : Nat) :
    ((rate = 0 ∨ FEE_RATE_DENOMINATOR_VALUE < rate) →
      (set_protocol_fee_rate cfg rate = none ∧ create_amm_config rate = none)) ∧
    (0 < rate → rate ≤ FEE_RATE_DENOMINATOR_VALUE →
      set_protocol_fee_rate cfg rate = some { cfg with protocol_fee_rate := rate }) := by
  unfold set_protocol_fee_rate create_amm_config FEE_RATE_DENOMINATOR_VALUE
  constructor
  · intro hbad
    split_ifs with hc
    · exfalso
      rcases hbad with h0 | hgt <;> omega
    · exact ⟨rfl, rfl⟩
  · intro hpos hle
    split_ifs with hc
    · rfl
    · exact absurd ⟨hpos, hle⟩ hc

/-- Witness for `protocol_fee_rate_assert`: panic at rate 0, success at
rate 3000. -/
theorem protocol_fee_rate_assert_witness :
    set_protocol_fee_rate ⟨100⟩ 0 = none ∧
      set_protocol_fee_rate ⟨100⟩ 3000 = some ⟨3000⟩ := by
  exact ⟨((protocol_fee_rate_assert ⟨100⟩ 0).1 (Or.inl rfl)).1,
    (protocol_fee_rate_assert ⟨100⟩ 3000).2 (by decide) (by decide)⟩

lemma liquidityNet_cons (p : Position) (ps : List Position) (t : Int) :
    liquidityNet (p :: ps) t =
      ((if p.tick_lower = t then (p.liquidity : Int) else 0) -
        (if p.tick_upper = t then (p.liquidity : Int) else 0)) +
        liquidityNet ps t := by
  simp [liquidityNet]

lemma sum_liquidityNet_of_boundaries_mem (ps : List Position) (S : Finset Int)
    (hb : ∀ p ∈ ps, p.tick_lower ∈ S ∧ p.tick_upper ∈ S) :
    ∑ t ∈ S, liquidityNet ps t = 0 := by
  induction ps with
  | nil => simp [liquidityNet]
  | cons p ps ih =>
    have hp := hb p (List.mem_cons_self p ps)
    have hrec := ih (fun q hq => hb q (List.mem_cons_of_mem p hq))
    calc ∑ t ∈ S, liquidityNet (p :: ps) t
        = (∑ t ∈ S, ((if p.tick_lower = t then (p.liquidity : Int) else 0) -
            (if p.tick_upper = t then (p.liquidity : Int) else 0))) +
            ∑ t ∈ S, liquidityNet ps t := by
          simp [liquidityNet_cons, Finset.sum_add_distrib]
      _ = 0 := by
          rw [hrec, Finset.sum_sub_distrib]
          simp [Finset.sum_ite_eq, hp.1, hp.2]

lemma boundaryTicks_mem (ps : List Position) (p : Position) (hp : p ∈ ps) :
    p.tick_lower ∈ boundaryTicks ps ∧ p.tick_upper ∈ boundaryTicks ps := by
  constructor
  · exact Finset.mem_union_left _ (List.mem_toFinset.mpr (List.mem_map.mpr ⟨p, hp, rfl⟩))
  · exact Finset.mem_union_right _ (List.mem_toFinset.mpr (List.mem_map.mpr ⟨p, hp, rfl⟩))

/-- A tick with zero liquidity-gross (an uninitialized tick) carries zero
liquidity-net: ticks outside the initialized set contribute nothing. -/
lemma liquidityNet_eq_zero_of_gross_eq_zero (ps : List Position) (t : Int)
    (h : liquidityGross ps t = 0) : liquidityNet ps t = 0 := by
  induction ps with
  | nil => simp [liquidityNet]
  | cons p ps ih =>
    have hsum : ((if p.tick_lower = t then p.liquidity else 0) +
        (if p.tick_upper = t then p.liquidity else 0)) + liquidityGross ps t = 0 := by
      simpa [liquidityGross] using h
    have h1 : (if p.tick_lower = t then p.liquidity else 0) = 0 := by omega
    have h2 : (if p.tick_upper = t then p.liquidity else 0) = 0 := by omega
    have h3 : liquidityGross ps t = 0 := by omega
    rw [liquidityNet_cons, ih h3]
    by_cases hl : p.tick_lower = t <;> by_cases hu : p.tick_upper = t <;>
      simp_all

/-- **C2.** After every sequence of liquidity add and remove operations
(`create_position`, `increase_liquidity`, `decrease_liquidity`), the sum of
liquidity-net over all initialized ticks is zero: for any finite set `S` of
ticks containing every initialized tick (nonzero liquidity-gross), the sum
of liquidity-net over `S` vanishes. -/
theorem liquidity_net_sum_zero (tick_spacing : Nat) (ops : List LiquidityOp)
    (S : Finset Int)
    (hS : ∀ t, liquidityGross (execLiquidityOps tick_spacing ops) t ≠ 0 → t ∈ S) :
    ∑ t ∈ S, liquidityNet (execLiquidityOps tick_spacing ops) t = 0 := by
  set ps := execLiquidityOps tick_spacing ops with hps
  have hsub : S ⊆ S ∪ boundaryTicks ps := Finset.subset_union_left
  have hzero : ∀ x ∈ S ∪ boundaryTicks ps, x ∉ S → liquidityNet ps x = 0 := by
    intro x _ hx
    apply liquidityNet_eq_zero_of_gross_eq_zero
    by_contra hne
    exact hx (hS x hne)
  have hext : ∑ t ∈ S, liquidityNet ps t =
      ∑ t ∈ S ∪ boundaryTicks ps, liquidityNet ps t :=
    Finset.sum_subset hsub hzero
  rw [hext]
  exact sum_liquidityNet_of_boundaries_mem ps _
    (fun p hp => ⟨Finset.mem_union_right _ (boundaryTicks_mem ps p hp).1,
      Finset.mem_union_right _ (boundaryTicks_mem ps p hp).2⟩)

/-- Witness for `liquidity_net_sum_zero`: create a position on
`[-10, 10)` with liquidity 100 and then remove 40 of it. -/
theorem liquidity_net_sum_zero_witness :
    ∑ t ∈ ({-10, 10} : Finset Int),
      liquidityNet (execLiquidityOps 5
        [.create (-10) 10 100, .decrease 0 40]) t = 0 := by
  apply liquidity_net_sum_zero
  intro t h
  have hexec : execLiquidityOps 5 [.create (-10) 10 100, .decrease 0 40] =
      [⟨-10, 10, 60⟩] := by rfl
  rw [hexec] at h
  by_cases h1 : (-10 : Int) = t
  · subst h1; simp
  · by_cases h2 : (10 : Int) = t
    · subst h2; simp
    · simp [liquidityGross, h1, h2] at h

/-- **C9 (counterexample).** In the claim's scenario the time-weighted
average tick over `[100, 300]` is NOT 10: during `[100, 200]` the weighted
tick is 10 and during `[200, 300]` it is 30 (each write weights its tick
argument over the elapsed interval), so the cumulative delta is
`10·100 + 30·100 = 4000` and the average is `4000 / 200 = 20`. -/
theorem oracle_twap_example_not_ten : twapTick oracleScenario 100 300 ≠ some 10 := by
  decide

/-- **C9 (amended).** Recording observations at timestamps 100, 200, 300
with ticks 0, 10, 30 and querying the time-weighted average tick over
`[100, 300]` yields exactly 20, derived by floor division of the
cumulative-tick delta (4000) by elapsed time (200). -/
theorem oracle_twap_example : twapTick oracleScenario 100 300 = some 20 := by
  decide

/-- **C7.** A reward stream's growth accumulator advances exactly by the
active-window overlap of the elapsed interval times the rate divided by
active liquidity: no accrual when active liquidity is zero, none before
the window opens (`now ≤ open_time`), none once the previous update has
reached the window's end, and otherwise the accrual is
`(min now end − max last open) · rate / liquidity`; `set_reward_emissions`
force-settles at the old rate before installing the new rate, and
`update_reward_infos` applies this to every stream. -/
theorem reward_growth_update (now liquidity : Nat) (r : RewardInfo) :
    (liquidity = 0 →
      (updateRewardInfo now liquidity r).reward_growth_global_x64 =
        r.reward_growth_global_x64) ∧
    (now ≤ r.open_time →
      (updateRewardInfo now liquidity r).reward_growth_global_x64 =
        r.reward_growth_global_x64) ∧
    (r.end_time ≤ r.last_update_time →
      (updateRewardInfo now liquidity r).reward_growth_global_x64 =
        r.reward_growth_global_x64) ∧
    (0 < liquidity →
      (updateRewardInfo now liquidity r).reward_growth_global_x64 =
        r.reward_growth_global_x64 +
          (min now r.end_time - max r.last_update_time r.open_time) *
            r.emissions_per_second_x64 / liquidity) ∧
    (∀ rate,
      (setRewardEmissions now liquidity rate r).reward_growth_global_x64 =
        (updateRewardInfo now liquidity r).reward_growth_global_x64 ∧
      (setRewardEmissions now liquidity rate r).emissions_per_second_x64 = rate) ∧
    (∀ rs : List RewardInfo,
      updateRewardInfos now liquidity rs = rs.map (updateRewardInfo now liquidity)) := by
  refine ⟨?_, ?_, ?_, ?_, fun rate => ⟨rfl, rfl⟩, fun rs => rfl⟩
  · intro h0
    simp [updateRewardInfo, h0]
  · intro hopen
    rcases Nat.eq_zero_or_pos liquidity with h0 | hpos
    · simp [updateRewardInfo, h0]
    · have hdt : min now r.end_time - max r.last_update_time r.open_time = 0 := by
        have : min now r.end_time ≤ max r.last_update_time r.open_time :=
          le_trans (min_le_left _ _) (le_trans hopen (le_max_right _ _))
        omega
      simp [updateRewardInfo, Nat.pos_iff_ne_zero.mp hpos, hdt]
  · intro hend
    rcases Nat.eq_zero_or_pos liquidity with h0 | hpos
    · simp [updateRewardInfo, h0]
    · have hdt : min now r.end_time - max r.last_update_time r.open_time = 0 := by
        have : min now r.end_time ≤ max r.last_update_time r.open_time :=
          le_trans (min_le_right _ _) (le_trans hend (le_max_left _ _))
        omega
      simp [updateRewardInfo, Nat.pos_iff_ne_zero.mp hpos, hdt]
  · intro hpos
    simp [updateRewardInfo, Nat.pos_iff_ne_zero.mp hpos]

/-- Witness for `reward_growth_update`: a stream with window `[50, 150)`,
emission rate 80, last update at 60, updated at time 100 with active
liquidity 4: accrual is `(100 − 60) · 80 / 4 = 800`; with zero liquidity
there is no accrual. -/
theorem reward_growth_update_witness :
    (updateRewardInfo 100 4
      ⟨50, 150, 60, 80, 7⟩).reward_growth_global_x64 = 7 + 800 ∧
    (updateRewardInfo 100 0
      ⟨50, 150, 60, 80, 7⟩).reward_growth_global_x64 = 7 := by
  constructor
  · have h := (reward_growth_update 100 4 ⟨50, 150, 60, 80, 7⟩).2.2.2.1 (by decide)
    simpa using h
  · exact (reward_growth_update 100 0 ⟨50, 150, 60, 80, 7⟩).1 rfl

lemma feeGrowthInside_step_mono (l u : Int) (hlu : l < u) (s s' : FeeSnapshot)
    (h : FeeStep l u s s') : feeGrowthInside l u s ≤ feeGrowthInside l u s' := by
  cases h with
  | accrue δ =>
    unfold feeGrowthInside
    dsimp only
    split_ifs with h1 h2 <;> omega
  | move t hl hu =>
    unfold feeGrowthInside
    dsimp only
    split_ifs with h1 h2 h3 h4 <;> omega
  | crossLowerUp t h0 h1 h2 =>
    unfold feeGrowthInside
    dsimp only
    have hnl : ¬ l ≤ s.currentTick := not_le.mpr h0
    have hcu : s.currentTick < u := lt_trans h0 hlu
    rw [if_neg hnl, if_pos hcu, if_pos h1, if_pos h2]
  | crossLowerDown t h0 h1 h2 =>
    unfold feeGrowthInside
    dsimp only
    have hnl : ¬ l ≤ t := not_le.mpr h2
    have htu : t < u := lt_trans h2 hlu
    rw [if_pos h0, if_pos h1, if_neg hnl, if_pos htu]
    omega
  | crossUpperUp t h0 h1 h2 =>
    unfold feeGrowthInside
    dsimp only
    have hnu : ¬ t < u := not_lt.mpr h2
    have hlt : l ≤ t := le_trans (le_of_lt hlu) h2
    rw [if_pos h0, if_pos h1, if_pos hlt, if_neg hnu]
    omega
  | crossUpperDown t h0 h1 h2 =>
    unfold feeGrowthInside
    dsimp only
    have hnu : ¬ s.currentTick < u := not_lt.mpr h0
    have hls : l ≤ s.currentTick := le_trans (le_of_lt hlu) h0
    rw [if_pos hls, if_neg hnu, if_pos h1, if_pos h2]

/-- **C8.** For a position on `[l, u)`, across any sequence of pool
transitions between settlements (fee accrual, non-boundary price moves,
boundary crossings with their snapshot flips — no intervening removal of
liquidity), the recomputed fee-growth-inside value is non-decreasing:
at any later settlement it is at least its value at the earlier one. -/
theorem fee_growth_inside_monotone (l u : Int) (hlu : l < u)
    (s s' : FeeSnapshot) (h : Relation.ReflTransGen (FeeStep l u) s s') :
    feeGrowthInside l u s ≤ feeGrowthInside l u s' := by
  induction h with
  | refl => exact le_refl _
  | tail hstep htail ih =>
    exact le_trans ih (feeGrowthInside_step_mono l u hlu _ _ htail)

/-- Witness for `fee_growth_inside_monotone`: range `[-10, 10)`, accrue 5
of global fee growth with the price inside the range, then cross the upper
boundary upward; fee-growth-inside goes from 0 to 5. -/
theorem fee_growth_inside_monotone_witness :
    feeGrowthInside (-10) 10 ⟨0, 0, 0, 0⟩ ≤
      feeGrowthInside (-10) 10 ⟨15, 5, 0, 5⟩ ∧
    feeGrowthInside (-10) 10 ⟨0, 0, 0, 0⟩ = 0 ∧
    feeGrowthInside (-10) 10 ⟨15, 5, 0, 5⟩ = 5 := by
  refine ⟨?_, by decide, by decide⟩
  have h1 : FeeStep (-10) 10 ⟨0, 0, 0, 0⟩ ⟨0, 5, 0, 0⟩ :=
    FeeStep.accrue ⟨0, 0, 0, 0⟩ 5
  have h2 : FeeStep (-10) 10 ⟨0, 5, 0, 0⟩ ⟨15, 5, 0, 5⟩ :=
    FeeStep.crossUpperUp ⟨0, 5, 0, 0⟩ 15 (by decide) (by decide) (by decide)
  exact fee_growth_inside_monotone (-10) 10 (by decide) _ _
    ((Relation.ReflTransGen.single h1).tail h2)

lemma isqrtIter_eq_sqrt_iter (n : Nat) :
    ∀ fuel guess, guess ≤ fuel → isqrtIter n fuel guess = Nat.sqrt.iter n guess := by
  intro fuel
  induction fuel with
  | zero =>
    intro guess hg
    have hg0 : guess = 0 := Nat.le_zero.mp hg
    subst hg0
    unfold Nat.sqrt.iter
    simp [isqrtIter]
  | succ k ih =>
    intro guess hg
    unfold isqrtIter Nat.sqrt.iter
    dsimp only
    by_cases h : (guess + n / guess) / 2 < guess
    · rw [if_pos h, dif_pos h, ih _ (by omega)]
    · rw [if_neg h, dif_neg h]

lemma isqrt_eq_sqrt (n : Nat) : isqrt n = Nat.sqrt n := by
  unfold isqrt Nat.sqrt
  by_cases h : n ≤ 1
  · rw [if_pos h, if_pos h]
  · rw [if_neg h, if_neg h, isqrtIter_eq_sqrt_iter n (n / 2) (n / 2) le_rfl]

lemma ratioX128_ofNat (a : Nat) :
    ratioX128 (a : Int) = 2 ^ 128 * 10001 ^ a / 10000 ^ a := by
  unfold ratioX128
  rw [if_pos (Int.natCast_nonneg a), Int.toNat_natCast]

lemma ratioX128_neg (a : Nat) :
    ratioX128 (-(a : Int)) = 2 ^ 128 * 10000 ^ a / 10001 ^ a := by
  unfold ratioX128
  rcases Nat.eq_zero_or_pos a with h0 | hpos
  · subst h0
    norm_num
  · have hneg : ¬ (0 : Int) ≤ -(a : Int) := by
      simp only [not_le]
      exact neg_neg_of_pos (by exact_mod_cast hpos)
    rw [if_neg hneg, neg_neg, Int.toNat_natCast]

lemma div_mul_div_le (N D k m : Nat) (hD : 0 < D) :
    N / D * k / m ≤ N * k / (D * m) := by
  have h1 : N / D * k ≤ N * k / D := by
    rw [Nat.le_div_iff_mul_le hD]
    calc N / D * k * D = N / D * D * k := by ring
      _ ≤ N * k := Nat.mul_le_mul_right k (Nat.div_mul_le_self N D)
  calc N / D * k / m ≤ (N * k / D) / m := Nat.div_le_div_right h1
    _ = N * k / (D * m) := Nat.div_div_eq_div_mul _ _ _

lemma ratio_step (t : Int) :
    ratioX128 t * 10001 / 10000 ≤ ratioX128 (t + 1) := by
  rcases le_or_lt 0 t with ht | ht
  · obtain ⟨a, rfl⟩ : ∃ a : Nat, t = (a : Int) :=
      ⟨t.toNat, (Int.toNat_of_nonneg ht).symm⟩
    have h1 : ((a : Int) + 1) = ((a + 1 : Nat) : Int) := by push_cast; ring
    rw [ratioX128_ofNat, h1, ratioX128_ofNat]
    calc 2 ^ 128 * 10001 ^ a / 10000 ^ a * 10001 / 10000
        ≤ 2 ^ 128 * 10001 ^ a * 10001 / (10000 ^ a * 10000) :=
          div_mul_div_le _ _ _ _ (Nat.pos_pow_of_pos a (by norm_num))
      _ = 2 ^ 128 * 10001 ^ (a + 1) / 10000 ^ (a + 1) := by
          rw [pow_succ 10000 a]
          congr 1
          rw [pow_succ 10001 a]
          ring
  · obtain ⟨a, rfl⟩ : ∃ a : Nat, t = -((a + 1 : Nat) : Int) :=
      ⟨(-t).toNat - 1, by omega⟩
    have h1 : (-((a + 1 : Nat) : Int) + 1) = -((a : Nat) : Int) := by push_cast; ring
    rw [ratioX128_neg, h1, ratioX128_neg]
    have hE : 0 < 10001 ^ a := Nat.pos_pow_of_pos a (by norm_num)
    have hstep1 : 2 ^ 128 * 10000 ^ (a + 1) / 10001 ^ (a + 1) * 10001 ≤
        2 ^ 128 * 10000 ^ (a + 1) / 10001 ^ a := by
      rw [Nat.le_div_iff_mul_le hE]
      calc 2 ^ 128 * 10000 ^ (a + 1) / 10001 ^ (a + 1) * 10001 * 10001 ^ a
          = 2 ^ 128 * 10000 ^ (a + 1) / 10001 ^ (a + 1) * (10001 ^ a * 10001) := by ring
        _ = 2 ^ 128 * 10000 ^ (a + 1) / 10001 ^ (a + 1) * 10001 ^ (a + 1) := by
            rw [pow_succ 10001 a]
        _ ≤ 2 ^ 128 * 10000 ^ (a + 1) := Nat.div_mul_le_self _ _
    calc 2 ^ 128 * 10000 ^ (a + 1) / 10001 ^ (a + 1) * 10001 / 10000
        ≤ (2 ^ 128 * 10000 ^ (a + 1) / 10001 ^ a) / 10000 :=
          Nat.div_le_div_right hstep1
      _ = 2 ^ 128 * 10000 ^ (a + 1) / (10001 ^ a * 10000) :=
          Nat.div_div_eq_div_mul _ _ _
      _ = 2 ^ 128 * 10000 ^ a * 10000 / (10001 ^ a * 10000) := by
          congr 1
          rw [pow_succ 10000 a]
          ring
      _ = 2 ^ 128 * 10000 ^ a / 10001 ^ a :=
          Nat.mul_div_mul_right _ _ (by norm_num)

lemma ratio_step_add (t : Int) :
    ratioX128 t + ratioX128 t / 10000 ≤ ratioX128 (t + 1) := by
  have h := ratio_step t
  have hid : ratioX128 t * 10001 / 10000 =
      ratioX128 t + ratioX128 t / 10000 := by
    have : ratioX128 t * 10001 = 10000 * ratioX128 t + ratioX128 t := by ring
    rw [this, Nat.mul_add_div (by norm_num)]
  rw [hid] at h
  exact h

lemma ratio_mono_step (t : Int) : ratioX128 t ≤ ratioX128 (t + 1) :=
  le_trans (Nat.le_add_right _ _) (ratio_step_add t)

lemma ratio_mono {t t' : Int} (h : t ≤ t') : ratioX128 t ≤ ratioX128 t' := by
  have key : ∀ n : Nat, ratioX128 t ≤ ratioX128 (t + n) := by
    intro n
    induction n with
    | zero => simp
    | succ k ih =>
      have hcast : t + ((k + 1 : Nat) : Int) = (t + k) + 1 := by push_cast; ring
      rw [hcast]
      exact le_trans ih (ratio_mono_step (t + k))
  have hn : t + ((t' - t).toNat : Int) = t' := by omega
  have := key (t' - t).toNat
  rwa [hn] at this

set_option exponentiation.threshold 1000000 in
set_option maxRecDepth 8000 in
lemma ratio_min_bound : 900000000 ≤ ratioX128 MIN_TICK := by
  have h : ratioX128 MIN_TICK = 2 ^ 128 * 10000 ^ 443636 / 10001 ^ 443636 := by
    have h0 : MIN_TICK = -((443636 : Nat) : Int) := by norm_num [MIN_TICK]
    rw [h0, ratioX128_neg]
  rw [h]
  decide

lemma sqrt_ratio_ge_30000 (t : Int) (h : MIN_TICK ≤ t) :
    30000 ≤ Nat.sqrt (ratioX128 t) := by
  apply Nat.le_sqrt.mpr
  calc 30000 * 30000 ≤ 900000000 := by norm_num
    _ ≤ ratioX128 MIN_TICK := ratio_min_bound
    _ ≤ ratioX128 t := ratio_mono h

lemma sqrt_price_strict_step (t : Int) (h : MIN_TICK ≤ t) :
    sqrt_price_from_tick t < sqrt_price_from_tick (t + 1) := by
  unfold sqrt_price_from_tick
  rw [isqrt_eq_sqrt, isqrt_eq_sqrt]
  have hs30 : 30000 ≤ Nat.sqrt (ratioX128 t) := sqrt_ratio_ge_30000 t h
  set s := Nat.sqrt (ratioX128 t) with hs
  have h1 : s * s ≤ ratioX128 t := Nat.sqrt_le _
  have h2 : 30000 * s ≤ s * s := Nat.mul_le_mul_right s hs30
  have h3 : 30000 * s / 10000 ≤ ratioX128 t / 10000 :=
    Nat.div_le_div_right (le_trans h2 h1)
  have h4 : 30000 * s / 10000 = 3 * s := by omega
  have h5 : ratioX128 t + ratioX128 t / 10000 ≤ ratioX128 (t + 1) :=
    ratio_step_add t
  have hgoal : s + 1 ≤ Nat.sqrt (ratioX128 (t + 1)) := by
    apply Nat.le_sqrt.mpr
    calc (s + 1) * (s + 1) = s * s + (2 * s + 1) := by ring
      _ ≤ ratioX128 t + 3 * s := Nat.add_le_add h1 (by omega)
      _ ≤ ratioX128 t + ratioX128 t / 10000 :=
          Nat.add_le_add_left (h4 ▸ h3) _
      _ ≤ ratioX128 (t + 1) := h5
  omega

lemma sqrt_price_strict_mono {t t' : Int} (hmin : MIN_TICK ≤ t) (h : t < t') :
    sqrt_price_from_tick t < sqrt_price_from_tick t' := by
  have key : ∀ n : Nat, sqrt_price_from_tick t < sqrt_price_from_tick (t + 1 + n) := by
    intro n
    induction n with
    | zero => simpa using sqrt_price_strict_step t hmin
    | succ k ih =>
      have hcast : t + 1 + ((k + 1 : Nat) : Int) = (t + 1 + k) + 1 := by
        push_cast; ring
      rw [hcast]
      exact lt_trans ih (sqrt_price_strict_step (t + 1 + k) (by omega))
  have hn : t + 1 + ((t' - t - 1).toNat : Int) = t' := by omega
  have := key (t' - t - 1).toNat
  rwa [hn] at this

lemma sqrt_price_mono {t t' : Int} (hmin : MIN_TICK ≤ t) (h : t ≤ t') :
    sqrt_price_from_tick t ≤ sqrt_price_from_tick t' := by
  rcases eq_or_lt_of_le h with rfl | hlt
  · exact le_rfl
  · exact le_of_lt (sqrt_price_strict_mono hmin hlt)

lemma tickSearch_zero (p lo hi : Nat) : tickSearch p lo hi 0 = lo := rfl

lemma tickSearch_succ (p lo hi k : Nat) :
    tickSearch p lo hi (k + 1) =
      if lo < hi then
        if sqrt_price_from_tick (MIN_TICK + (((lo + hi + 1) / 2 : Nat) : Int)) ≤ p then
          tickSearch p ((lo + hi + 1) / 2) hi k
        else tickSearch p lo ((lo + hi + 1) / 2 - 1) k
      else lo := rfl

lemma tickSearch_spec (p n : Nat) (hn : n ≤ NUM_TICKS)
    (hlow : sqrt_price_from_tick (MIN_TICK + n) ≤ p)
    (hhigh : ∀ m : Nat, n < m → m ≤ NUM_TICKS →
      p < sqrt_price_from_tick (MIN_TICK + m)) :
    ∀ fuel lo hi, lo ≤ n → n ≤ hi → hi ≤ NUM_TICKS → hi - lo < 2 ^ fuel →
      tickSearch p lo hi fuel = n := by
  intro fuel
  induction fuel with
  | zero =>
    intro lo hi h1 h2 h3 h4
    rw [tickSearch_zero]
    simp only [pow_zero] at h4
    omega
  | succ k ih =>
    intro lo hi h1 h2 h3 h4
    rw [pow_succ] at h4
    have hdm := Nat.div_add_mod (lo + hi + 1) 2
    have hml : (lo + hi + 1) % 2 < 2 := Nat.mod_lt _ (by norm_num)
    rw [tickSearch_succ]
    by_cases hlh : lo < hi
    · rw [if_pos hlh]
      by_cases hf :
          sqrt_price_from_tick (MIN_TICK + (((lo + hi + 1) / 2 : Nat) : Int)) ≤ p
      · rw [if_pos hf]
        generalize hmd : (lo + hi + 1) / 2 = mid at hf hdm ⊢
        have hmn : mid ≤ n := by
          by_contra hc
          push_neg at hc
          exact absurd hf (not_le.mpr (hhigh mid hc (by omega)))
        exact ih mid hi hmn h2 h3 (by omega)
      · rw [if_neg hf]
        generalize hmd : (lo + hi + 1) / 2 = mid at hf hdm ⊢
        have hnm : n < mid := by
          by_contra hc
          push_neg at hc
          apply hf
          calc sqrt_price_from_tick (MIN_TICK + (mid : Int))
              ≤ sqrt_price_from_tick (MIN_TICK + (n : Int)) := by
                apply sqrt_price_mono (by omega)
                omega
            _ ≤ p := hlow
        exact ih lo (mid - 1) h1 (by omega) (by omega) (by omega)
    · rw [if_neg hlh]
      omega

/-- **C1.** For every tick `t` within the global tick bounds, converting
`t` to its Q64.64 square-root price and converting that price back yields
`t` again: `tick_from_sqrt_price (sqrt_price_from_tick t) = t`. -/
theorem tick_price_roundtrip (t : Int) (hmin : MIN_TICK ≤ t)
    (hmax : t ≤ MAX_TICK) :
    tick_from_sqrt_price (sqrt_price_from_tick t) = t := by
  have hM : MIN_TICK = -443636 := rfl
  have hX : MAX_TICK = 443636 := rfl
  have hN : NUM_TICKS = 887272 := rfl
  unfold tick_from_sqrt_price
  have htn : MIN_TICK + ((t - MIN_TICK).toNat : Int) = t := by omega
  have h1 : tickSearch (sqrt_price_from_tick t) 0 NUM_TICKS 20 =
      (t - MIN_TICK).toNat := by
    apply tickSearch_spec
    · omega
    · rw [htn]
    · intro m hm hmN
      conv_lhs => rw [← htn]
      apply sqrt_price_strict_mono (by omega)
      omega
    · exact Nat.zero_le _
    · omega
    · exact le_rfl
    · norm_num [hN]
  rw [h1]
  omega

/-- Witness for `tick_price_roundtrip` at tick 0. -/
theorem tick_price_roundtrip_witness :
    MIN_TICK ≤ 0 ∧ (0 : Int) ≤ MAX_TICK ∧
      tick_from_sqrt_price (sqrt_price_from_tick 0) = 0 :=
  ⟨by decide, by decide, tick_price_roundtrip 0 (by decide) (by decide)⟩

/-- **C3.** For every swap invoked with `is_base_input = true` and amount
`A` that returns successfully, the consumed input is at most `A` and the
produced output is at least `other_amount_threshold`; and whenever the
computed output falls short of a minimum-output bound, the whole operation
fails with `SlippageExceeded`. -/
theorem swap_exact_input_bounds (pool : PoolState) (now : Nat)
    (zeroForOne : Bool) (amount threshold limit : Nat)
    (pool' : PoolState) (aIn aOut : Nat)
    (h : swap pool now zeroForOne amount threshold limit true =
      .ok (pool', aIn, aOut)) :
    aIn ≤ amount ∧ threshold ≤ aOut ∧
      ∀ threshold' : Nat,
        (swapRaw pool now zeroForOne amount limit true).amountCalculated <
            threshold' →
          swap pool now zeroForOne amount threshold' limit true =
            .error .SlippageExceeded := by
  unfold swap at h ⊢
  by_cases hval : (if zeroForOne then ¬ limit < pool.sqrt_price_x64
      else ¬ pool.sqrt_price_x64 < limit)
  · rw [if_pos hval] at h
    cases h
  · rw [if_neg hval] at h
    rw [if_pos rfl] at h
    by_cases hsl : (swapRaw pool now zeroForOne amount limit true).amountCalculated <
        threshold
    · rw [if_pos hsl] at h
      cases h
    · rw [if_neg hsl] at h
      have hinj := h
      injection hinj with h1
      injection h1 with hpool hrest
      injection hrest with hin hout
      refine ⟨?_, ?_, ?_⟩
      · rw [← hin]
        exact Nat.sub_le _ _
      · rw [← hout]
        exact not_lt.mp hsl
      · intro threshold' hlt
        rw [if_neg hval, if_pos rfl, if_pos hlt]

set_option maxRecDepth 200000 in
/-- Witness for `swap_exact_input_bounds`: an exact-input swap on a pool
with a single initialized tick at −100, driven exactly to the limit price
at that tick (zero liquidity, so zero amounts move and the tick is
crossed). -/
theorem swap_exact_input_bounds_witness :
    swap ⟨0, sqrt_price_from_tick 0, 0, 3000, 120000, 50, 40, 0, 0, [],
        [(-100, ⟨0, 5, 7, 3, []⟩)], [-100], []⟩ 0 true 100 0
        (sqrt_price_from_tick (-100)) true =
      .ok (⟨-101, sqrt_price_from_tick (-100), 0, 3000, 120000, 50, 40, 0, 0, [],
        [(-100, ⟨0, 5, 43, 37, []⟩)], [-100], [⟨0, 0⟩]⟩, 0, 0) ∧
    (0 : Nat) ≤ 100 ∧ (0 : Nat) ≤ 0 := by
  have h : swap ⟨0, sqrt_price_from_tick 0, 0, 3000, 120000, 50, 40, 0, 0, [],
      [(-100, ⟨0, 5, 7, 3, []⟩)], [-100], []⟩ 0 true 100 0
      (sqrt_price_from_tick (-100)) true =
    .ok (⟨-101, sqrt_price_from_tick (-100), 0, 3000, 120000, 50, 40, 0, 0, [],
      [(-100, ⟨0, 5, 43, 37, []⟩)], [-100], [⟨0, 0⟩]⟩, 0, 0) := by rfl
  have hb := swap_exact_input_bounds _ 0 true 100 0 _ _ 0 0 h
  exact ⟨h, hb.1, hb.2.1⟩

/-- Sanity bound for the exact-input step: the step's input plus its fee
never exceeds the remaining specified amount, so the loop's running
subtraction never truncates. -/
lemma exactIn_fee_bound (remaining feeRate aMax : Nat)
    (hfee : feeRate < FEE_RATE_DENOMINATOR_VALUE)
    (h : aMax ≤ remaining * (FEE_RATE_DENOMINATOR_VALUE - feeRate) / FEE_RATE_DENOMINATOR_VALUE) :
    aMax + ceilDiv (aMax * feeRate) (FEE_RATE_DENOMINATOR_VALUE - feeRate) ≤ remaining := by
  have hD : FEE_RATE_DENOMINATOR_VALUE = 1000000 := rfl
  set k := FEE_RATE_DENOMINATOR_VALUE - feeRate with hk
  have hkpos : 0 < k := by omega
  have hDk : k + feeRate = FEE_RATE_DENOMINATOR_VALUE := by omega
  have h1 : aMax * FEE_RATE_DENOMINATOR_VALUE ≤ remaining * k := by
    calc aMax * FEE_RATE_DENOMINATOR_VALUE
        ≤ remaining * k / FEE_RATE_DENOMINATOR_VALUE * FEE_RATE_DENOMINATOR_VALUE :=
          Nat.mul_le_mul_right _ h
      _ ≤ remaining * k := Nat.div_mul_le_self _ _
  have hmul : k * aMax + aMax * feeRate = aMax * FEE_RATE_DENOMINATOR_VALUE := by
    rw [← hDk]; ring
  have h2 : aMax + ceilDiv (aMax * feeRate) k =
      (aMax * FEE_RATE_DENOMINATOR_VALUE + (k - 1)) / k := by
    calc aMax + ceilDiv (aMax * feeRate) k
        = aMax + (aMax * feeRate + (k - 1)) / k := by
          unfold ceilDiv
          rw [show aMax * feeRate + k - 1 = aMax * feeRate + (k - 1) from by omega]
      _ = (k * aMax + (aMax * feeRate + (k - 1))) / k :=
          (Nat.mul_add_div hkpos _ _).symm
      _ = (aMax * FEE_RATE_DENOMINATOR_VALUE + (k - 1)) / k := by
          rw [← Nat.add_assoc, hmul]
  have h3 : (aMax * FEE_RATE_DENOMINATOR_VALUE + (k - 1)) / k ≤
      (remaining * k + (k - 1)) / k := Nat.div_le_div_right (by omega)
  have h4 : (remaining * k + (k - 1)) / k = remaining + (k - 1) / k := by
    rw [Nat.mul_comm remaining k, Nat.mul_add_div hkpos]
  have h5 : (k - 1) / k = 0 := Nat.div_eq_of_lt (by omega)
  omega

lemma computeSwapStep_exactIn_consumed_le (pCur pTarget L remaining feeRate : Nat)
    (hfee : feeRate < FEE_RATE_DENOMINATOR_VALUE) :
    (computeSwapStep pCur pTarget L remaining feeRate true).amount_in +
      (computeSwapStep pCur pTarget L remaining feeRate true).fee_amount ≤ remaining := by
  have hD : FEE_RATE_DENOMINATOR_VALUE = 1000000 := rfl
  have hrlf : remaining * (FEE_RATE_DENOMINATOR_VALUE - feeRate) / FEE_RATE_DENOMINATOR_VALUE ≤
      remaining := by
    have h1 : remaining * (FEE_RATE_DENOMINATOR_VALUE - feeRate) ≤
        remaining * FEE_RATE_DENOMINATOR_VALUE := Nat.mul_le_mul_left _ (by omega)
    have h2 : remaining * (FEE_RATE_DENOMINATOR_VALUE - feeRate) / FEE_RATE_DENOMINATOR_VALUE ≤
        remaining * FEE_RATE_DENOMINATOR_VALUE / FEE_RATE_DENOMINATOR_VALUE :=
      Nat.div_le_div_right h1
    rwa [Nat.mul_div_cancel _ (by omega)] at h2
  simp only [computeSwapStep]
  rw [if_pos trivial]
  split_ifs <;> dsimp only <;>
    first
      | exact exactIn_fee_bound remaining feeRate _ hfee (by assumption)
      | omega

lemma lookupTick_update (ticks : List (Int × TickInfo)) (t : Int)
    (info new : TickInfo) (h : lookupTick ticks t = some info) :
    lookupTick (updateTickEntry ticks t new) t = some new := by
  induction ticks with
  | nil => simp [lookupTick] at h
  | cons e es ih =>
    by_cases he : e.1 == t
    · unfold lookupTick updateTickEntry
      rw [List.map_cons, if_pos he, List.find?_cons_of_pos _ (by simp)]
    · unfold lookupTick at h
      rw [List.find?_cons_of_neg (p := fun x => x.1 == t) es he] at h
      unfold lookupTick updateTickEntry
      rw [List.map_cons, if_neg he]
      have hstep : List.find? (fun x => x.1 == t)
          (e :: List.map (fun x => if (x.1 == t) = true then (t, new) else x) es) =
          List.find? (fun x => x.1 == t)
            (List.map (fun x => if (x.1 == t) = true then (t, new) else x) es) :=
        List.find?_cons_of_neg _ he
      rw [hstep]
      exact ih h

/-- **C6.** Whenever a swap step ends exactly at an initialized tick
boundary (the step's reached price equals the boundary tick's price and
the bitmap search found an initialized tick), the loop performs exactly
one `crossTick` on top of the step accounting; and crossing a tick flips
its fee/reward outside-snapshots exactly once (`outside ↦ global −
outside`), applies its liquidity-net exactly once to the pool's active
liquidity (subtracted when swapping zero-for-one, added otherwise),
advances the current tick past the boundary, and flips the tick's bitmap
bit iff its liquidity-gross is zero. -/
theorem swap_cross_step_effects (exactIn zeroForOne : Bool) (limit : Nat)
    (s : SwapState) (info : TickInfo)
    (hb : (swapStepCompute exactIn zeroForOne limit s).sqrt_price_next =
      sqrt_price_from_tick (swapNext zeroForOne s.pool).1)
    (hinit : (swapNext zeroForOne s.pool).2 = true)
    (hlook : lookupTick s.pool.ticks (swapNext zeroForOne s.pool).1 = some info) :
    swapStepOnce exactIn zeroForOne limit s =
      { applySwapStepAccounting exactIn zeroForOne
          (swapStepCompute exactIn zeroForOne limit s) s with
        pool := crossTick (applySwapStepAccounting exactIn zeroForOne
          (swapStepCompute exactIn zeroForOne limit s) s).pool
          (swapNext zeroForOne s.pool).1 zeroForOne } ∧
    (∀ (q : PoolState) (t : Int) (dir : Bool) (i : TickInfo),
      lookupTick q.ticks t = some i →
        lookupTick (crossTick q t dir).ticks t =
          some ⟨i.liquidity_net, i.liquidity_gross,
            q.fee_growth_global_0_x64 - i.fee_growth_outside_0_x64,
            q.fee_growth_global_1_x64 - i.fee_growth_outside_1_x64,
            (q.reward_growths_global.zip i.reward_growths_outside).map
              (fun gr => gr.1 - gr.2)⟩ ∧
        (crossTick q t dir).liquidity =
          (if dir then (q.liquidity : Int) - i.liquidity_net
           else (q.liquidity : Int) + i.liquidity_net).toNat ∧
        (crossTick q t dir).tick = (if dir then t - 1 else t) ∧
        (crossTick q t dir).bitmap =
          (if i.liquidity_gross = 0 then q.bitmap.erase t else q.bitmap)) := by
  constructor
  · simp only [swapStepOnce]
    rw [if_pos hb, hinit]
    simp
  · intro q t dir i hq
    unfold crossTick
    rw [hq]
    refine ⟨?_, rfl, rfl, rfl⟩
    exact lookupTick_update q.ticks t i _ hq

set_option maxRecDepth 200000 in
/-- Witness for `swap_cross_step_effects`: the crossing of the initialized
tick at −100 in the scenario of `swap_exact_input_bounds_witness`; the
outside snapshots 7 and 3 flip to 43 and 37 against globals 50 and 40, the
tick advances to −101, and the bitmap keeps its bit (gross is 5 ≠ 0). -/
theorem swap_cross_step_effects_witness :
    (swapStepOnce true true (sqrt_price_from_tick (-100))
      ⟨⟨0, sqrt_price_from_tick 0, 0, 3000, 120000, 50, 40, 0, 0, [],
        [(-100, ⟨0, 5, 7, 3, []⟩)], [-100], []⟩, 100, 0⟩).pool.tick = -101 ∧
    lookupTick (swapStepOnce true true (sqrt_price_from_tick (-100))
      ⟨⟨0, sqrt_price_from_tick 0, 0, 3000, 120000, 50, 40, 0, 0, [],
        [(-100, ⟨0, 5, 7, 3, []⟩)], [-100], []⟩, 100, 0⟩).pool.ticks (-100) =
      some ⟨0, 5, 43, 37, []⟩ := by
  obtain ⟨hroute, heff⟩ := swap_cross_step_effects true true
    (sqrt_price_from_tick (-100))
    ⟨⟨0, sqrt_price_from_tick 0, 0, 3000, 120000, 50, 40, 0, 0, [],
      [(-100, ⟨0, 5, 7, 3, []⟩)], [-100], []⟩, 100, 0⟩
    ⟨0, 5, 7, 3, []⟩ (by rfl) (by rfl) (by rfl)
  rw [hroute]
  constructor
  · rfl
  · rfl

/-- **C4.** For every engine operation (swap, add/remove liquidity,
collect, oracle or reward update) that returns an error, all pool, tick,
position, and oracle state after the transaction boundary is exactly as it
was before the call began: no partial effect of a failing operation is
observable. -/
theorem failed_op_state_unchanged (now tick_spacing : Nat)
    (st : EngineState) (op : EngineOp) (e : ErrorCode)
    (h : execEngineOp now tick_spacing st op = .error e) :
    runEngineOp now tick_spacing st op = st := by
  unfold runEngineOp
  rw [h]

/-- Witness for `failed_op_state_unchanged`: removing liquidity from a
nonexistent position fails with `InsufficientLiquidity` and leaves the
state untouched. -/
theorem failed_op_state_unchanged_witness :
    execEngineOp 0 1 ⟨⟨0, 0, 0, 0, 0, 0, 0, 0, 0, [], [], [], []⟩, [], []⟩
        (.decreaseLiquidity 0 5) = .error .InsufficientLiquidity ∧
      runEngineOp 0 1 ⟨⟨0, 0, 0, 0, 0, 0, 0, 0, 0, [], [], [], []⟩, [], []⟩
        (.decreaseLiquidity 0 5) =
        ⟨⟨0, 0, 0, 0, 0, 0, 0, 0, 0, [], [], [], []⟩, [], []⟩ := by
  refine ⟨rfl, ?_⟩
  exact failed_op_state_unchanged 0 1 _ _ .InsufficientLiquidity rfl

end AmmCore
